import Mathlib

/-!
Shallow embedding of the bookprint document segmentation and hierarchy
reconstruction engine (packages internal/book, internal/util/parsetree,
internal/util/slices), together with proofs of its specification claims.

HTML parse trees are modelled as a simple inductive of element and text
nodes; serialized markup is modelled by the node forest itself (the
parse-tree adapter's parse and serialize are external collaborators and
round-trip at tree level).  Go multiple returns of a value and an error
are modelled as a pair of the value with an optional error string.
-/

namespace Bookprint

/-- An HTML parse-tree node: an element with a tag name, an ordered
attribute list and child nodes, or a text node.  This mirrors the slice
of golang.org/x/net/html node structure the program uses: the Data field
holds the tag name for elements and the text for text nodes. -/
inductive Node where
  | element : String → List (String × String) → List Node → Node
  | text : String → Node
deriving Repr, Inhabited

/-- The html.Node Data field: tag name of an element, content of a text node. -/
def nodeData : Node → String
  | .element tag _ _ => tag
  | .text s => s

/-- parsetree.IsElement. -/
def isElement : Node → Bool
  | .element _ _ _ => true
  | .text _ => false

/-- parsetree.IsText. -/
def isText : Node → Bool
  | .element _ _ _ => false
  | .text _ => true

/-- The child list of a node (an html.Node's FirstChild/NextSibling chain). -/
def childNodes : Node → List Node
  | .element _ _ cs => cs
  | .text _ => []

/-- parsetree.TagName: tag name of an element node, empty string otherwise. -/
def tagName (node : Node) : String :=
  if isElement node then nodeData node else ""

/-- parsetree.HeadingMap as a lookup function: heading tag to heading level. -/
def headingLookup (tag : String) : Option Nat :=
  if tag = "h1" then some 1
  else if tag = "h2" then some 2
  else if tag = "h3" then some 3
  else if tag = "h4" then some 4
  else if tag = "h5" then some 5
  else if tag = "h6" then some 6
  else none

/-- parsetree.IsHeading: an element node whose Data is a key of HeadingMap. -/
def isHeading (node : Node) : Bool :=
  isElement node && (headingLookup (nodeData node)).isSome

/-- parsetree.IsBody: an element node whose Data is "body". -/
def isBody (node : Node) : Bool :=
  isElement node && (nodeData node == "body")

/-- parsetree.ChildrenFunc: direct children satisfying a predicate, in order. -/
def childrenFunc (node : Node) (p : Node → Bool) : List Node :=
  (childNodes node).filter p

/-- parsetree.Headings: the heading elements among the DIRECT children of
the given node, in document order. -/
def headings (node : Node) : List Node :=
  childrenFunc node isHeading

/-- parsetree.Children: direct children that are element or text nodes. -/
def childrenET (node : Node) : List Node :=
  childrenFunc node (fun n => isElement n || isText n)

/-- parsetree.HeadingLevel: the numeric level for a heading node's Data,
or the error the Go function returns alongside -1. -/
def headingLevel (node : Node) : Except String Nat :=
  match headingLookup (nodeData node) with
  | some level => .ok level
  | none => .error "the given node contains no valid heading tag"

/-- parsetree.Text on a forest: concatenated text content of text nodes,
recursing into element nodes, in document order. -/
def textList : List Node → String
  | [] => ""
  | .text s :: rest => s ++ textList rest
  | .element _ _ cs :: rest => textList cs ++ textList rest

/-- parsetree.Text: recursive text content of the node's children. -/
def textContent (node : Node) : String :=
  textList (childNodes node)

/-- Splits a character list around runs of whitespace (strings.Fields),
accumulating the current word in reverse. -/
def wordsAux : List Char → List Char → List (List Char)
  | [], acc => if acc.isEmpty then [] else [acc.reverse]
  | c :: rest, acc =>
    if c.isWhitespace then
      if acc.isEmpty then wordsAux rest [] else acc.reverse :: wordsAux rest []
    else wordsAux rest (c :: acc)

/-- strings.Join of words with a single space. -/
def joinSpace : List (List Char) → List Char
  | [] => []
  | [w] => w
  | w :: rest => w ++ ' ' :: joinSpace rest

/-- strings.Join(strings.Fields(s), " "): collapse whitespace runs to a
single space and trim the ends, as chapters.go does for heading text. -/
def normalizeWs (s : String) : String :=
  ⟨joinSpace (wordsAux s.data [])⟩

/-- Value of one hexadecimal digit character, as url.QueryUnescape reads it. -/
def unhex (c : Char) : Option Nat :=
  if '0' ≤ c ∧ c ≤ '9' then some (c.toNat - '0'.toNat)
  else if 'a' ≤ c ∧ c ≤ 'f' then some (c.toNat - 'a'.toNat + 10)
  else if 'A' ≤ c ∧ c ≤ 'F' then some (c.toNat - 'A'.toNat + 10)
  else none

/-- url.QueryUnescape on a character list: a percent sign must be followed
by two hex digits and decodes to that code, a plus decodes to a space, any
other character is kept; a malformed escape fails the whole decode. -/
def queryUnescapeL : List Char → Option (List Char)
  | [] => some []
  | '%' :: a :: b :: rest =>
    match unhex a, unhex b with
    | some ha, some hb => (queryUnescapeL rest).map (fun r => Char.ofNat (16 * ha + hb) :: r)
    | _, _ => none
  | '%' :: _ => none
  | '+' :: rest => (queryUnescapeL rest).map (fun r => ' ' :: r)
  | c :: rest => (queryUnescapeL rest).map (fun r => c :: r)

/-- url.QueryUnescape: none models the error return. -/
def queryUnescape (s : String) : Option String :=
  (queryUnescapeL s.data).map (fun cs => ⟨cs⟩)

/-- slices.Insert: returns a shallow copy of the slice with the element
written at the index; when the index is beyond the end the copy is grown
and padded with zero values (the default). -/
def insertGo {α : Type} [Inhabited α] (slice : List α) (element : α) (index : Nat) : List α :=
  let size := if index < slice.length then slice.length else index + 1
  (List.range size).map (fun j => if j = index then element else (slice[j]?).getD default)

/-- book.Title: numbering label, inner markup of the heading (as a node
forest) and its whitespace-normalized text. -/
structure Title where
  pfx : String
  html : List Node
  text : String

/-- book.Content: chapter body markup as a node forest. -/
structure Content where
  html : List Node

/-- book.Chapter. -/
structure Chapter where
  id : Nat
  level : Nat
  path : String
  title : Title
  content : Content

/-- The three counters captured by the getPrefix closure in chapters.go. -/
structure PrefixState where
  h1Counter : Nat
  h2Counter : Nat
  h3Counter : Nat

/-- One invocation of the closure returned by getPrefix: an h1 increments
counter 1 and resets counter 2 (counter 3 is left alone); an h2 increments
counter 2 and resets counter 3; an h3 increments counter 3 with no resets;
every other tag leaves the state alone and yields the empty string. -/
def prefixStep (st : PrefixState) (heading : Node) : PrefixState × String :=
  let tn := tagName heading
  if tn == "h1" then
    ({ st with h1Counter := st.h1Counter + 1, h2Counter := 0 }, Nat.repr (st.h1Counter + 1))
  else if tn == "h2" then
    ({ st with h2Counter := st.h2Counter + 1, h3Counter := 0 },
      Nat.repr st.h1Counter ++ "." ++ Nat.repr (st.h2Counter + 1))
  else if tn == "h3" then
    ({ st with h3Counter := st.h3Counter + 1 },
      Nat.repr st.h1Counter ++ "." ++ Nat.repr st.h2Counter ++ "." ++ Nat.repr (st.h3Counter + 1))
  else (st, "")

/-- fmt.Sprintf("page%d.html", id). -/
def chapterPath (id : Nat) : String :=
  "page" ++ Nat.repr id ++ ".html"

/-- parsetree.SiblingsUntilFunc applied to the siblings following a node:
collect until the predicate holds. -/
def siblingsUntilFunc (following : List Node) (p : Node → Bool) : List Node :=
  following.takeWhile (fun n => !(p n))

/-- Pairs each heading child with the list of its following siblings, in
document order; the first components are exactly parsetree.Headings. -/
def headingsWithTails : List Node → List (Node × List Node)
  | [] => []
  | n :: rest =>
    if isHeading n then (n, rest) :: headingsWithTails rest
    else headingsWithTails rest

/-- The loop body of book.Chapters: index and prefix counters are threaded
through the headings in document order; a heading-level error aborts with
the chapters built so far. -/
def chaptersLoop : List (Node × List Node) → Nat → PrefixState → List Chapter × Option String
  | [], _, _ => ([], none)
  | (heading, tail) :: more, index, st =>
    let id := index + 1
    let path := chapterPath id
    match headingLevel heading with
    | .error e => ([], some e)
    | .ok level =>
      let headingText := normalizeWs (textContent heading)
      let headingHtml := childrenET heading
      let content := siblingsUntilFunc tail isHeading
      let stp := prefixStep st heading
      let chapter : Chapter :=
        { id := id, level := level, path := path,
          title := { pfx := stp.2, html := headingHtml, text := headingText },
          content := { html := content } }
      let r := chaptersLoop more (index + 1) stp.1
      (chapter :: r.1, r.2)

/-- book.Chapters: refuse a node that is not a body element, else build
one chapter per direct-child heading of the body. -/
def Chapters (body : Node) : List Chapter × Option String :=
  if !(isBody body) then ([], some "passed HTML node is not a 'body' element")
  else chaptersLoop (headingsWithTails (childNodes body)) 0
    { h1Counter := 0, h2Counter := 0, h3Counter := 0 }

/-- The shared loop body of getNext and getPrevious in pages.go: first
chapter with the wanted level wins; a strictly smaller level ends the scan
with no result. -/
def scanForLevel (level : Nat) : List Chapter → Option Chapter
  | [] => none
  | next :: rest =>
    if next.level == level then some next
    else if next.level < level then none
    else scanForLevel level rest

/-- book.getNext: forward scan from the chapter's successor.  The Go code
recovers the chapter's index with slices.Index by pointer identity; the
embedding passes the index explicitly. -/
def getNext (chapters : List Chapter) (i : Nat) : Option Chapter :=
  match chapters[i]? with
  | none => none
  | some c => scanForLevel c.level (chapters.drop (i + 1))

/-- book.getPrevious: backward scan from the chapter's predecessor,
modelled as a forward scan of the reversed earlier chapters. -/
def getPrevious (chapters : List Chapter) (i : Nat) : Option Chapter :=
  match chapters[i]? with
  | none => none
  | some c => scanForLevel c.level ((chapters.take i).reverse)

/-- book.getParents: scan every chapter before this one in list order and
write each one of strictly smaller level into slot level - 1 via
slices.Insert (empty slots are nil pointers, modelled as none). -/
def getParents (chapters : List Chapter) (i : Nat) : List (Option Chapter) :=
  match chapters[i]? with
  | none => []
  | some c =>
    (chapters.take i).foldl
      (fun parents current =>
        if current.level < c.level then insertGo parents (some current) (current.level - 1)
        else parents) []

/-- The loop body of book.getChildren: a chapter one level deeper and of
level at most 3 is collected; a chapter of level at most the target's ends
the scan (such a chapter is never itself collected, the two conditions
being disjoint). -/
def childScan (level : Nat) : List Chapter → List Chapter
  | [] => []
  | current :: rest =>
    let isChild := current.level == level + 1
    let isConsidered := decide (current.level ≤ 3)
    let here := if isChild && isConsidered then [current] else []
    if current.level ≤ level then here
    else here ++ childScan level rest

/-- book.getChildren. -/
def getChildren (chapters : List Chapter) (i : Nat) : List Chapter :=
  match chapters[i]? with
  | none => []
  | some c => childScan c.level (chapters.drop (i + 1))

/-- book.Page. -/
structure Page where
  id : Nat
  level : Nat
  path : String
  title : Title
  content : Content
  next : Option Chapter
  hasNext : Bool
  previous : Option Chapter
  hasPrevious : Bool
  parents : List (Option Chapter)
  hasParents : Bool
  children : List Chapter
  hasChildren : Bool

/-- The loop body of book.Pages: enrich the chapter at index i with its
navigation fields. -/
def buildPage (chapters : List Chapter) (i : Nat) (c : Chapter) : Page :=
  { id := c.id, level := c.level, path := c.path, title := c.title, content := c.content,
    next := getNext chapters i, hasNext := (getNext chapters i).isSome,
    previous := getPrevious chapters i, hasPrevious := (getPrevious chapters i).isSome,
    parents := getParents chapters i, hasParents := !(getParents chapters i).isEmpty,
    children := getChildren chapters i, hasChildren := !(getChildren chapters i).isEmpty }

/-- book.Pages: refuse a node that is not a body element, propagate a
Chapters error, else enrich every chapter. -/
def Pages (body : Node) : List Page × Option String :=
  if !(isBody body) then ([], some "passed HTML node is not a 'body' element")
  else
    let r := Chapters body
    match r.2 with
    | some e => ([], some e)
    | none => ((r.1.enum.map (fun p => buildPage r.1 p.1 p.2)), none)

/-- The per-attribute step of book.ResolveCrossReferences: on an href
attribute, look for the first page (document order) whose title text
equals the query-unescaped value, and overwrite the value with that
page's path; a decode error makes the predicate false for every page, so
the attribute is left unchanged.  Any other attribute is untouched. -/
def resolveAttrGo (pages : List Page) (attr : String × String) : String × String :=
  if attr.1 == "href" then
    match pages.find? (fun page =>
      match queryUnescape attr.2 with
      | none => false
      | some referencedTitle => page.title.text == referencedTitle) with
    | some crossReferencedPage => (attr.1, crossReferencedPage.path)
    | none => attr
  else attr

/-- The tree rewrite performed inside book.ResolveCrossReferences on one
page's re-parsed body: every anchor element found by ElementsByTagName (at
any depth) has each of its href attributes rewritten in place; nothing
else changes.  Text nodes carry no attributes, so collecting them is a
no-op, as in Go. -/
def rewriteForest (pages : List Page) : List Node → List Node
  | [] => []
  | .text s :: rest => .text s :: rewriteForest pages rest
  | .element tag attrs cs :: rest =>
    .element tag (if tag == "a" then attrs.map (resolveAttrGo pages) else attrs)
      (rewriteForest pages cs) :: rewriteForest pages rest

/-- The rewrite of a single node; rewriteForest maps it over a forest. -/
def rewriteNodeOne (pages : List Page) : Node → Node
  | .text s => .text s
  | .element tag attrs cs =>
    .element tag (if tag == "a" then attrs.map (resolveAttrGo pages) else attrs)
      (rewriteForest pages cs)

/-- book.ResolveCrossReferences: every page's content is re-parsed, its
anchors' href attributes rewritten against the full page list, and the
result stored back.  The Go loop mutates pages in place, but the lookup
reads only titles and paths, never content, so the sequential mutation is
the same as this map. -/
def ResolveCrossReferences (pages : List Page) : List Page :=
  pages.map (fun page =>
    { page with content := { html := rewriteForest pages page.content.html } })

/-- Following claim C2's words, not the source: the number of heading
elements found anywhere within the body, whether direct children or
nested deeper inside other elements, in document order. -/
def claimNestedHeadingCount : List Node → Nat
  | [] => 0
  | .text _ :: rest => claimNestedHeadingCount rest
  | .element tag attrs cs :: rest =>
    (if isHeading (.element tag attrs cs) then 1 else 0) +
      claimNestedHeadingCount cs + claimNestedHeadingCount rest

/-- A heading element with a single text child. -/
def hNode (tag txt : String) : Node :=
  .element tag [] [.text txt]

/-- A body whose headings are h1, h2, h3, h1, h3: the numbering quirk input. -/
def demoBody : Node :=
  .element "body" []
    [hNode "h1" "A", hNode "h2" "B", hNode "h3" "C", hNode "h1" "D", hNode "h3" "E"]

/-- A body whose only heading is nested inside a div, not a direct child. -/
def nestedBody : Node :=
  .element "body" [] [.element "div" [] [hNode "h1" "T"]]

/-- A plain chapter of the given id and level, for concrete hierarchy runs. -/
def mkChapter (id level : Nat) (text : String) : Chapter :=
  { id := id, level := level, path := chapterPath id,
    title := { pfx := "", html := [], text := text }, content := { html := [] } }

/-- Chapters at levels 1, 2, 3, 1, 3, mirroring demoBody. -/
def demoChapters : List Chapter :=
  [mkChapter 1 1 "A", mkChapter 2 2 "B", mkChapter 3 3 "C", mkChapter 4 1 "D", mkChapter 5 3 "E"]

/-- An anchor whose href names its own page's title, percent-escaped. -/
def selfRefAnchor : Node :=
  .element "a" [("href", "Getting%20Started")] [.text "link"]

/-- A page titled "Getting Started" containing a self-referencing anchor. -/
def demoPage : Page :=
  { id := 1, level := 1, path := "page1.html",
    title := { pfx := "1", html := [], text := "Getting Started" },
    content := { html := [selfRefAnchor] },
    next := none, hasNext := false, previous := none, hasPrevious := false,
    parents := [], hasParents := false, children := [], hasChildren := false }

/-- The one-page list around demoPage. -/
def demoPages : List Page := [demoPage]

/-- A body holding a single childless h2 heading. -/
def soloBody : Node :=
  .element "body" [] [.element "h2" [] []]

/-- The chapter Chapters extracts from soloBody: note the 0.1 numbering
label produced by an h2 with no preceding h1. -/
def soloChapter : Chapter :=
  { id := 1, level := 2, path := chapterPath 1,
    title := { pfx := Nat.repr 0 ++ "." ++ Nat.repr 1, html := [], text := "" },
    content := { html := [] } }

/-- The digit list Nat.repr produces, as a direct recursion: last digit
appended after the digits of the quotient. -/
def reprDigits (n : Nat) : List Char :=
  if n < 10 then [Nat.digitChar n]
  else reprDigits (n / 10) ++ [Nat.digitChar (n % 10)]
decreasing_by exact Nat.div_lt_self (by omega) (by omega)

/-! Helper lemmas. -/

lemma reprDigits_lt {n : Nat} (h : n < 10) : reprDigits n = [Nat.digitChar n] := by
  rw [reprDigits]
  simp [h]

lemma reprDigits_ge {n : Nat} (h : ¬ n < 10) :
    reprDigits n = reprDigits (n / 10) ++ [Nat.digitChar (n % 10)] := by
  conv_lhs => rw [reprDigits]
  simp [h]

lemma toDigitsCore_succ (b fuel n : Nat) (ds : List Char) :
    Nat.toDigitsCore b (fuel + 1) n ds =
      if n / b = 0 then Nat.digitChar (n % b) :: ds
      else Nat.toDigitsCore b fuel (n / b) (Nat.digitChar (n % b) :: ds) := rfl

lemma toDigitsCore_eq_reprDigits :
    ∀ (fuel n : Nat) (acc : List Char), n ≤ fuel →
      Nat.toDigitsCore 10 (fuel + 1) n acc = reprDigits n ++ acc := by
  intro fuel
  induction fuel with
  | zero =>
    intro n acc hn
    interval_cases n
    rw [toDigitsCore_succ, reprDigits_lt (by omega)]
    simp
  | succ fuel ih =>
    intro n acc hn
    by_cases h10 : n < 10
    · have hq : n / 10 = 0 := Nat.div_eq_of_lt h10
      have hm : n % 10 = n := Nat.mod_eq_of_lt h10
      rw [toDigitsCore_succ, if_pos hq, reprDigits_lt h10, hm]
      simp
    · have hq : n / 10 ≠ 0 := by
        have : 1 ≤ n / 10 := (Nat.one_le_div_iff (by omega)).mpr (by omega)
        omega
      have hrec := ih (n / 10) (Nat.digitChar (n % 10) :: acc)
        (by
          have hlt : n / 10 < n := Nat.div_lt_self (by omega) (by omega)
          omega)
      rw [toDigitsCore_succ, if_neg hq, hrec, reprDigits_ge h10]
      simp

lemma nat_repr_eq_reprDigits (n : Nat) : Nat.repr n = (reprDigits n).asString := by
  have h := toDigitsCore_eq_reprDigits n n [] (Nat.le_refl n)
  simp only [Nat.repr, Nat.toDigits]
  rw [h, List.append_nil]

lemma digitChar_inj : ∀ a < 10, ∀ b < 10, Nat.digitChar a = Nat.digitChar b → a = b := by
  decide

lemma reprDigits_ne_nil (n : Nat) : reprDigits n ≠ [] := by
  by_cases h : n < 10
  · rw [reprDigits_lt h]
    simp
  · rw [reprDigits_ge h]
    simp

lemma length_reprDigits_ge {n : Nat} (h : ¬ n < 10) : 2 ≤ (reprDigits n).length := by
  rw [reprDigits_ge h]
  have hne := reprDigits_ne_nil (n / 10)
  cases hd : reprDigits (n / 10) with
  | nil => exact absurd hd hne
  | cons x xs =>
    simp [hd]

lemma reprDigits_inj : ∀ n m : Nat, reprDigits n = reprDigits m → n = m := by
  intro n
  induction n using Nat.strong_induction_on with
  | _ n ih =>
    intro m h
    by_cases hn : n < 10 <;> by_cases hm : m < 10
    · rw [reprDigits_lt hn, reprDigits_lt hm] at h
      simp at h
      exact digitChar_inj n hn m hm h
    · have hlen := congrArg List.length h
      rw [reprDigits_lt hn] at hlen
      have := length_reprDigits_ge hm
      simp at hlen
      omega
    · have hlen := congrArg List.length h
      rw [reprDigits_lt hm] at hlen
      have := length_reprDigits_ge hn
      simp at hlen
      omega
    · rw [reprDigits_ge hn, reprDigits_ge hm] at h
      have hparts := List.append_inj' h (by simp)
      have hq : n / 10 = m / 10 := by
        have hlt : n / 10 < n := Nat.div_lt_self (by omega) (by omega)
        exact ih (n / 10) hlt (m / 10) hparts.1
      have hr : n % 10 = m % 10 := by
        have hx : Nat.digitChar (n % 10) = Nat.digitChar (m % 10) := by
          have h2 := hparts.2
          simpa using h2
        exact digitChar_inj (n % 10) (Nat.mod_lt _ (by omega)) (m % 10) (Nat.mod_lt _ (by omega)) hx
      have h1 := Nat.div_add_mod n 10
      have h2 := Nat.div_add_mod m 10
      omega

lemma nat_repr_inj {n m : Nat} (h : Nat.repr n = Nat.repr m) : n = m := by
  rw [nat_repr_eq_reprDigits, nat_repr_eq_reprDigits] at h
  exact reprDigits_inj n m (congrArg String.data h)

lemma chapterPath_inj {a b : Nat} (h : chapterPath a = chapterPath b) : a = b := by
  apply nat_repr_inj
  have hd := congrArg String.data h
  simp only [chapterPath, String.data_append, List.append_assoc] at hd
  have h1 := List.append_cancel_left hd
  have h2 := List.append_cancel_right h1
  exact congrArg String.mk h2

lemma insertGo_getElem? {α : Type} [Inhabited α] (slice : List α) (e : α) (idx k : Nat) :
    (insertGo slice e idx)[k]? =
      if k < (if idx < slice.length then slice.length else idx + 1) then
        some (if k = idx then e else (slice[k]?).getD default)
      else none := by
  simp only [insertGo]
  by_cases hk : k < (if idx < slice.length then slice.length else idx + 1)
  · rw [if_pos hk, List.getElem?_map, List.getElem?_range hk]
    rfl
  · rw [if_neg hk, List.getElem?_map, List.getElem?_eq_none]
    · rfl
    · simpa using Nat.le_of_not_lt hk

lemma find?_of_first {α : Type} (p : α → Bool) :
    ∀ (l : List α) (i : Nat) (a : α), l[i]? = some a → p a = true →
      (∀ j b, j < i → l[j]? = some b → p b = false) → l.find? p = some a := by
  intro l
  induction l with
  | nil =>
    intro i a ha _ _
    simp at ha
  | cons x xs ih =>
    intro i a ha hpa hfirst
    cases i with
    | zero =>
      simp at ha
      subst ha
      simp [List.find?, hpa]
    | succ i =>
      have hx : p x = false := hfirst 0 x (Nat.succ_pos i) (by simp)
      simp at ha
      simp [List.find?, hx]
      exact ih i a ha hpa (fun j b hj hb => hfirst (j + 1) b (by omega) (by simpa using hb))

lemma scanForLevel_spec (lvl : Nat) :
    ∀ (l : List Chapter) (n : Chapter), scanForLevel lvl l = some n →
      n.level = lvl ∧ ∃ j : Nat, l[j]? = some n ∧
        ∀ (m : Nat) (d : Chapter), m < j → l[m]? = some d → lvl < d.level := by
  intro l
  induction l with
  | nil =>
    intro n h
    simp [scanForLevel] at h
  | cons x xs ih =>
    intro n h
    by_cases h1 : x.level = lvl
    · simp [scanForLevel, h1] at h
      subst h
      refine ⟨h1, 0, by simp, ?_⟩
      intro m d hm
      omega
    · by_cases h2 : x.level < lvl
      · simp [scanForLevel, h1, h2] at h
      · simp [scanForLevel, h1, h2] at h
        obtain ⟨hn, j, hj, hprev⟩ := ih n h
        refine ⟨hn, j + 1, by simpa using hj, ?_⟩
        intro m d hm hmd
        cases m with
        | zero =>
          simp at hmd
          subst hmd
          omega
        | succ m =>
          simp at hmd
          exact hprev m d (by omega) hmd

lemma childScan_eq (lvl : Nat) (h3 : lvl + 1 ≤ 3) :
    ∀ l : List Chapter, childScan lvl l =
      (l.takeWhile (fun d => decide (lvl < d.level))).filter (fun d => d.level == lvl + 1) := by
  intro l
  induction l with
  | nil => simp [childScan]
  | cons x xs ih =>
    by_cases hstop : x.level ≤ lvl
    · have hc : x.level ≠ lvl + 1 := by omega
      have hw : ¬ lvl < x.level := by omega
      simp [childScan, hstop, List.takeWhile_cons, hw, hc]
    · have hw : lvl < x.level := by omega
      by_cases hc : x.level = lvl + 1
      · have hcons : x.level ≤ 3 := by omega
        have h2 : lvl ≤ 2 := by omega
        simp [childScan, hstop, List.takeWhile_cons, hw, hc, hcons, List.filter_cons, ih, h2]
      · simp [childScan, hstop, List.takeWhile_cons, hw, hc, List.filter_cons, ih]

lemma childScan_nil (lvl : Nat) (hlvl : 3 ≤ lvl) :
    ∀ l : List Chapter, childScan lvl l = [] := by
  intro l
  induction l with
  | nil => simp [childScan]
  | cons x xs ih =>
    have hc : ¬ (x.level = lvl + 1 ∧ x.level ≤ 3) := by omega
    by_cases hx : x.level = lvl + 1
    · have hns : ¬ x.level ≤ 3 := by omega
      by_cases hstop : x.level ≤ lvl <;> simp [childScan, hx, hns, hstop, ih] <;> omega
    · by_cases hstop : x.level ≤ lvl <;> simp [childScan, hx, hstop, ih]

lemma headingsWithTails_fst :
    ∀ l : List Node, (headingsWithTails l).map Prod.fst = l.filter isHeading := by
  intro l
  induction l with
  | nil => simp [headingsWithTails]
  | cons n rest ih =>
    by_cases h : isHeading n
    · simp [headingsWithTails, h, List.filter_cons, ih]
    · simp [headingsWithTails, h, List.filter_cons, ih]

lemma headingsWithTails_mem :
    ∀ (l : List Node) (p : Node × List Node), p ∈ headingsWithTails l → isHeading p.1 = true := by
  intro l
  induction l with
  | nil =>
    intro p hp
    simp [headingsWithTails] at hp
  | cons n rest ih =>
    intro p hp
    by_cases h : isHeading n
    · simp [headingsWithTails, h] at hp
      rcases hp with hp | hp
      · subst hp
        exact h
      · exact ih p hp
    · simp [headingsWithTails, h] at hp
      exact ih p hp

lemma headingLookup_bounds {s : String} {lv : Nat} (h : headingLookup s = some lv) :
    1 ≤ lv ∧ lv ≤ 6 := by
  unfold headingLookup at h
  split_ifs at h <;> simp_all <;> omega

lemma chaptersLoop_spec :
    ∀ (l : List (Node × List Node)) (i : Nat) (st : PrefixState),
      (∀ p ∈ l, isHeading p.1 = true) →
      (chaptersLoop l i st).2 = none ∧
      (chaptersLoop l i st).1.length = l.length ∧
      ∀ j c, ((chaptersLoop l i st).1)[j]? = some c →
        c.id = i + j + 1 ∧ c.path = chapterPath (i + j + 1) ∧ 1 ≤ c.level ∧ c.level ≤ 6 := by
  intro l
  induction l with
  | nil =>
    intro i st _
    refine ⟨rfl, rfl, ?_⟩
    intro j c hc
    simp [chaptersLoop] at hc
  | cons q more ih =>
    intro i st hall
    obtain ⟨heading, tail⟩ := q
    have hh : isHeading heading = true := hall (heading, tail) (List.mem_cons_self _ _)
    have hlk : (headingLookup (nodeData heading)).isSome := by
      simp [isHeading] at hh
      exact hh.2
    obtain ⟨lv, hlv⟩ := Option.isSome_iff_exists.mp hlk
    have hmore := ih (i + 1) (prefixStep st heading).1
      (fun q hq => hall q (List.mem_cons_of_mem _ hq))
    have hstep : chaptersLoop ((heading, tail) :: more) i st =
        ({ id := i + 1, level := lv, path := chapterPath (i + 1),
           title := { pfx := (prefixStep st heading).2, html := childrenET heading,
                      text := normalizeWs (textContent heading) },
           content := { html := siblingsUntilFunc tail isHeading } }
          :: (chaptersLoop more (i + 1) (prefixStep st heading).1).1,
         (chaptersLoop more (i + 1) (prefixStep st heading).1).2) := by
      simp [chaptersLoop, headingLevel, hlv]
    rw [hstep]
    refine ⟨hmore.1, by simp [hmore.2.1], ?_⟩
    intro j c hc
    cases j with
    | zero =>
      simp at hc
      obtain ⟨hb1, hb2⟩ := headingLookup_bounds hlv
      refine ⟨?_, ?_, ?_, ?_⟩ <;> simp [← hc, hb1, hb2]
    | succ j =>
      simp at hc
      have hres := hmore.2.2 j c hc
      have harith : i + 1 + j + 1 = i + (j + 1) + 1 := by omega
      rw [harith] at hres
      exact hres

lemma foldl_parents (cl : Nat) (Q : Chapter → Prop) :
    ∀ (l : List Chapter) (acc : List (Option Chapter)),
      (∀ d ∈ l, Q d) →
      (∀ k p, acc[k]? = some (some p) → p.level < cl ∧ k = p.level - 1 ∧ Q p) →
      ∀ k p,
        (l.foldl (fun parents current =>
          if current.level < cl then insertGo parents (some current) (current.level - 1)
          else parents) acc)[k]? = some (some p) →
        p.level < cl ∧ k = p.level - 1 ∧ Q p := by
  intro l
  induction l with
  | nil =>
    intro acc _ hacc k p hk
    exact hacc k p hk
  | cons x xs ih =>
    intro acc hl hacc k p hk
    simp only [List.foldl_cons] at hk
    refine ih _ (fun d hd => hl d (List.mem_cons_of_mem _ hd)) ?_ k p hk
    intro k' p' hk'
    by_cases hx : x.level < cl
    · rw [if_pos hx, insertGo_getElem?] at hk'
      by_cases hsz : k' < (if x.level - 1 < acc.length then acc.length else x.level - 1 + 1)
      · rw [if_pos hsz] at hk'
        by_cases hki : k' = x.level - 1
        · simp [hki] at hk'
          exact ⟨by simpa [← hk'] using hx, by simp [← hk', hki],
            by simpa [← hk'] using hl x (List.mem_cons_self _ _)⟩
        · simp [hki] at hk'
          cases hacc2 : acc[k']? with
          | none => simp [hacc2] at hk'
          | some v =>
            rw [hacc2] at hk'
            simp at hk'
            exact hacc k' p' (by rw [hacc2, hk'])
      · rw [if_neg hsz] at hk'
        exact absurd hk' (by simp)
    · rw [if_neg hx] at hk'
      exact hacc k' p' hk'

lemma rewriteForest_eq_map (pages : List Page) :
    ∀ l : List Node, rewriteForest pages l = l.map (rewriteNodeOne pages) := by
  intro l
  induction l with
  | nil => simp [rewriteForest]
  | cons n rest ih =>
    cases n with
    | text s => simp [rewriteForest, rewriteNodeOne, ih]
    | element t attrs cs => simp [rewriteForest, rewriteNodeOne, ih]

lemma resolveAttr_first (pages : List Page) (v t : String) (i : Nat) (p : Page)
    (hdec : queryUnescape v = some t) (hp : pages[i]? = some p) (ht : p.title.text = t)
    (hfirst : ∀ j q, j < i → pages[j]? = some q → q.title.text ≠ t) :
    resolveAttrGo pages ("href", v) = ("href", p.path) := by
  have hfind : pages.find? (fun page => page.title.text == t) = some p := by
    apply find?_of_first _ pages i p hp
    · simp [ht]
    · intro j b hj hb
      simp
      exact hfirst j b hj hb
  simp [resolveAttrGo, hdec, hfind]

lemma resolveAttr_nomatch (pages : List Page) (v t : String)
    (hdec : queryUnescape v = some t) (hnone : ∀ q ∈ pages, q.title.text ≠ t) :
    resolveAttrGo pages ("href", v) = ("href", v) := by
  have hfind : pages.find? (fun page => page.title.text == t) = none := by
    rw [List.find?_eq_none]
    intro x hx
    simp
    exact hnone x hx
  simp [resolveAttrGo, hdec, hfind]

lemma resolveAttr_decode_fail (pages : List Page) (v : String)
    (h : queryUnescape v = none) :
    resolveAttrGo pages ("href", v) = ("href", v) := by
  have hfind : pages.find? (fun _ => false) = none := by
    rw [List.find?_eq_none]
    intro x _
    simp
  simp [resolveAttrGo, h, hfind]

lemma headingsWithTails_length (l : List Node) :
    (headingsWithTails l).length = (l.filter isHeading).length := by
  have h := congrArg List.length (headingsWithTails_fst l)
  simpa using h

lemma chapters_of_body {b : Node} (hb : isBody b = true) :
    Chapters b = chaptersLoop (headingsWithTails (childNodes b)) 0
      { h1Counter := 0, h2Counter := 0, h3Counter := 0 } := by
  simp [Chapters, hb]

/-! Claim theorems. -/

/-- C1: the numbering prefix is computed by three per-level counters, as
one step of the getPrefix closure: a level-1 heading increments counter 1,
resets counter 2 to 0 (but not counter 3) and yields counter 1; a level-2
heading increments counter 2, resets counter 3 and yields
counter1.counter2; a level-3 heading increments counter 3 with no resets
and yields counter1.counter2.counter3; h4, h5 and h6 yield the empty
label; and the heading sequence h1, h2, h3, h1, h3 run through Chapters
yields the labels 1, 1.1, 1.1.1, 2, 2.0.2. -/
theorem C1_numbering_counters :
    (∀ (st : PrefixState) (attrs : List (String × String)) (cs : List Node),
      prefixStep st (.element "h1" attrs cs) =
        ({ st with h1Counter := st.h1Counter + 1, h2Counter := 0 },
          Nat.repr (st.h1Counter + 1))) ∧
    (∀ (st : PrefixState) (attrs : List (String × String)) (cs : List Node),
      prefixStep st (.element "h2" attrs cs) =
        ({ st with h2Counter := st.h2Counter + 1, h3Counter := 0 },
          Nat.repr st.h1Counter ++ "." ++ Nat.repr (st.h2Counter + 1))) ∧
    (∀ (st : PrefixState) (attrs : List (String × String)) (cs : List Node),
      prefixStep st (.element "h3" attrs cs) =
        ({ st with h3Counter := st.h3Counter + 1 },
          Nat.repr st.h1Counter ++ "." ++ Nat.repr st.h2Counter ++ "." ++
            Nat.repr (st.h3Counter + 1))) ∧
    (∀ (st : PrefixState) (attrs : List (String × String)) (cs : List Node),
      prefixStep st (.element "h4" attrs cs) = (st, "")) ∧
    (∀ (st : PrefixState) (attrs : List (String × String)) (cs : List Node),
      prefixStep st (.element "h5" attrs cs) = (st, "")) ∧
    (∀ (st : PrefixState) (attrs : List (String × String)) (cs : List Node),
      prefixStep st (.element "h6" attrs cs) = (st, "")) ∧
    (Chapters demoBody).1.map (fun c => c.title.pfx) = ["1", "1.1", "1.1.1", "2", "2.0.2"] := by
  refine ⟨fun st attrs cs => rfl, fun st attrs cs => rfl, fun st attrs cs => rfl,
    fun st attrs cs => rfl, fun st attrs cs => rfl, fun st attrs cs => rfl, by decide⟩

/-- C2 counterexample: the only heading of nestedBody sits inside a div,
nested below the body; the claim predicts one extracted Section for it,
but Chapters finds headings only among the body's direct children and
extracts nothing (without reporting an error). -/
theorem C2_counterexample :
    isBody nestedBody = true ∧
    claimNestedHeadingCount (childNodes nestedBody) = 1 ∧
    (Chapters nestedBody).1.length = 0 ∧
    (Chapters nestedBody).2 = none := by
  refine ⟨by decide, ?_, rfl, rfl⟩
  simp [claimNestedHeadingCount, nestedBody, hNode, isHeading, isElement, nodeData,
    headingLookup, childNodes]

/-- C2 (amended): extraction produces one Section per heading element that
is a direct child of the body, in document order; extraction reports no
error, the section count equals the count of direct-child headings, the
i-th Section (1-based) has Id i and Path page-i-.html, and all Paths are
pairwise distinct. -/
theorem C2_sections_per_heading (b : Node) (hb : isBody b = true) :
    (Chapters b).2 = none ∧
    (Chapters b).1.length = (headings b).length ∧
    (∀ (j : Nat) (c : Chapter), ((Chapters b).1)[j]? = some c →
      c.id = j + 1 ∧ c.path = chapterPath (j + 1)) ∧
    (∀ (j k : Nat) (cj ck : Chapter), ((Chapters b).1)[j]? = some cj →
      ((Chapters b).1)[k]? = some ck → j ≠ k → cj.path ≠ ck.path) := by
  have hC := chapters_of_body hb
  have hspec := chaptersLoop_spec (headingsWithTails (childNodes b)) 0
    { h1Counter := 0, h2Counter := 0, h3Counter := 0 }
    (fun p hp => headingsWithTails_mem _ p hp)
  rw [hC]
  refine ⟨hspec.1, ?_, ?_, ?_⟩
  · rw [hspec.2.1, headingsWithTails_length]
    rfl
  · intro j c hc
    have h := hspec.2.2 j c hc
    exact ⟨by simpa using h.1, by simpa using h.2.1⟩
  · intro j k cj ck hj hk hne hpath
    have h1 := hspec.2.2 j cj hj
    have h2 := hspec.2.2 k ck hk
    rw [h1.2.1, h2.2.1] at hpath
    have := chapterPath_inj hpath
    omega

/-- C2 witness: demoBody is a body and its section count matches its
direct-child heading count. -/
theorem C2_sections_witness :
    isBody demoBody = true ∧ (Chapters demoBody).1.length = (headings demoBody).length :=
  ⟨by decide, (C2_sections_per_heading demoBody (by decide)).2.1⟩

/-- C3: an href whose query-unescaped value equals the title text of the
first matching page (document order) is rewritten to that page's path; a
decodable href matching no page title is left unchanged; rewriteForest
rewrites exactly the attribute lists of anchor elements this way; and
ResolveCrossReferences applies that rewrite to every page's body against
the whole page list. -/
theorem C3_cross_references (pages : List Page) (v t : String)
    (attrs : List (String × String)) (cs rest : List Node) :
    (∀ (i : Nat) (p : Page), queryUnescape v = some t → pages[i]? = some p →
      p.title.text = t →
      (∀ (j : Nat) (q : Page), j < i → pages[j]? = some q → q.title.text ≠ t) →
      resolveAttrGo pages ("href", v) = ("href", p.path)) ∧
    (queryUnescape v = some t → (∀ q ∈ pages, q.title.text ≠ t) →
      resolveAttrGo pages ("href", v) = ("href", v)) ∧
    (rewriteForest pages (.element "a" attrs cs :: rest) =
      .element "a" (attrs.map (resolveAttrGo pages)) (rewriteForest pages cs) ::
        rewriteForest pages rest) ∧
    (ResolveCrossReferences pages =
      pages.map (fun page =>
        { page with content := { html := rewriteForest pages page.content.html } })) := by
  refine ⟨?_, ?_, ?_, rfl⟩
  · intro i p hdec hp ht hfirst
    exact resolveAttr_first pages v t i p hdec hp ht hfirst
  · intro hdec hnone
    exact resolveAttr_nomatch pages v t hdec hnone
  · simp [rewriteForest]

/-- C3 witness: the escaped self-title reference in demoPages resolves to
the page's path. -/
theorem C3_cross_references_witness :
    queryUnescape "Getting%20Started" = some "Getting Started" ∧
    demoPages[0]? = some demoPage ∧
    resolveAttrGo demoPages ("href", "Getting%20Started") = ("href", demoPage.path) := by
  refine ⟨by decide, rfl, ?_⟩
  exact (C3_cross_references demoPages "Getting%20Started" "Getting Started" [] [] []).1
    0 demoPage (by decide) rfl rfl (fun j q hj _ => absurd hj (by omega))

/-- C4: every non-empty slot of the ancestors list getParents builds holds
a chapter of strictly smaller level than the chapter at index i, sits in
the slot for its own level (level - 1), and occurs earlier in the list. -/
theorem C4_ancestors (chapters : List Chapter) (i k : Nat) (c p : Chapter)
    (hc : chapters[i]? = some c)
    (hk : (getParents chapters i)[k]? = some (some p)) :
    p.level < c.level ∧ k = p.level - 1 ∧ ∃ j : Nat, j < i ∧ chapters[j]? = some p := by
  simp only [getParents, hc] at hk
  refine foldl_parents c.level (fun d => ∃ j : Nat, j < i ∧ chapters[j]? = some d)
    (chapters.take i) [] ?_ ?_ k p hk
  · intro d hd
    obtain ⟨j, hj⟩ := List.mem_iff_getElem?.mp hd
    obtain ⟨hjlen, _⟩ := List.getElem?_eq_some_iff.mp hj
    have hji : j < i := by
      have := List.length_take i chapters
      omega
    refine ⟨j, hji, ?_⟩
    rw [← List.getElem?_take_of_lt hji]
    exact hj
  · intro k' p' hk'
    simp at hk'

/-- C4 witness: in the level sequence 1, 2, 3, 1, 3, the chapter at index
2 (level 3) has the level-1 chapter in ancestor slot 0. -/
theorem C4_ancestors_witness :
    demoChapters[2]? = some (mkChapter 3 3 "C") ∧
    (getParents demoChapters 2)[0]? = some (some (mkChapter 1 1 "A")) ∧
    ((mkChapter 1 1 "A").level < (mkChapter 3 3 "C").level ∧
      0 = (mkChapter 1 1 "A").level - 1 ∧
      ∃ j : Nat, j < 2 ∧ demoChapters[j]? = some (mkChapter 1 1 "A")) :=
  ⟨rfl, rfl, C4_ancestors demoChapters 2 0 (mkChapter 3 3 "C") (mkChapter 1 1 "A") rfl rfl⟩

/-- C5: when getNext yields a chapter it has the same level and every
chapter strictly between the two has a strictly larger level; getPrevious
is symmetric, scanning backward. -/
theorem C5_siblings (chapters : List Chapter) (i : Nat) (c : Chapter)
    (hc : chapters[i]? = some c) :
    (∀ n : Chapter, getNext chapters i = some n →
      n.level = c.level ∧ ∃ j : Nat, i < j ∧ chapters[j]? = some n ∧
        ∀ (m : Nat) (d : Chapter), i < m → m < j → chapters[m]? = some d →
          c.level < d.level) ∧
    (∀ p : Chapter, getPrevious chapters i = some p →
      p.level = c.level ∧ ∃ j : Nat, j < i ∧ chapters[j]? = some p ∧
        ∀ (m : Nat) (d : Chapter), j < m → m < i → chapters[m]? = some d →
          c.level < d.level) := by
  constructor
  · intro n hn
    simp only [getNext, hc] at hn
    obtain ⟨hlev, j0, hj0, hbetween⟩ := scanForLevel_spec c.level _ n hn
    rw [List.getElem?_drop] at hj0
    refine ⟨hlev, i + 1 + j0, by omega, hj0, ?_⟩
    intro m d him hmj hmd
    have hidx : (chapters.drop (i + 1))[m - (i + 1)]? = some d := by
      rw [List.getElem?_drop]
      have harith : i + 1 + (m - (i + 1)) = m := by omega
      rw [harith]
      exact hmd
    exact hbetween (m - (i + 1)) d (by omega) hidx
  · intro p hp
    simp only [getPrevious, hc] at hp
    obtain ⟨hlev, j0, hj0, hbetween⟩ := scanForLevel_spec c.level _ p hp
    have hilen : i < chapters.length := (List.getElem?_eq_some_iff.mp hc).1
    have htlen : (chapters.take i).length = i := by
      rw [List.length_take]
      omega
    have hj0i : j0 < i := by
      have := (List.getElem?_eq_some_iff.mp hj0).1
      simpa [htlen] using this
    have hrev : (chapters.take i).reverse[j0]? = (chapters.take i)[i - 1 - j0]? := by
      rw [List.getElem?_reverse (by simpa [htlen] using hj0i), htlen]
    have hj : chapters[i - 1 - j0]? = some p := by
      rw [hrev] at hj0
      rw [← List.getElem?_take_of_lt (show i - 1 - j0 < i by omega)]
      exact hj0
    refine ⟨hlev, i - 1 - j0, by omega, hj, ?_⟩
    intro m d hjm hmi hmd
    have hdidx : (chapters.take i).reverse[i - 1 - m]? = some d := by
      rw [List.getElem?_reverse (by rw [htlen]; omega), htlen]
      have harith : i - 1 - (i - 1 - m) = m := by omega
      rw [harith, List.getElem?_take_of_lt hmi]
      exact hmd
    exact hbetween (i - 1 - m) d (by omega) hdidx

/-- C5 witness: in the level sequence 1, 2, 3, 1, 3, the next sibling of
the first level-1 chapter is the level-1 chapter at index 3, with only
deeper chapters in between. -/
theorem C5_siblings_witness :
    (mkChapter 4 1 "D").level = (mkChapter 1 1 "A").level ∧
    ∃ j : Nat, 0 < j ∧ demoChapters[j]? = some (mkChapter 4 1 "D") ∧
      ∀ (m : Nat) (d : Chapter), 0 < m → m < j → demoChapters[m]? = some d →
        (mkChapter 1 1 "A").level < d.level :=
  (C5_siblings demoChapters 0 (mkChapter 1 1 "A") rfl).1 (mkChapter 4 1 "D") rfl

/-- C6: a chapter of level at most 2 gets as children exactly the chapters
one level deeper that occur after it and before the first later chapter of
level at most its own; a chapter of level 3 or more always has an empty
children list. -/
theorem C6_children (chapters : List Chapter) (i : Nat) (c : Chapter)
    (hc : chapters[i]? = some c) :
    (c.level ≤ 2 →
      getChildren chapters i =
        ((chapters.drop (i + 1)).takeWhile (fun d => decide (c.level < d.level))).filter
          (fun d => d.level == c.level + 1)) ∧
    (3 ≤ c.level → getChildren chapters i = []) := by
  constructor
  · intro h2
    simp only [getChildren, hc]
    exact childScan_eq c.level (by omega) _
  · intro h3
    simp only [getChildren, hc]
    exact childScan_nil c.level h3 _

/-- C6 witness: the level-1 chapter at index 0 of the sequence 1, 2, 3, 1,
3 has the filtered takeWhile children, and the level-3 chapter at index 2
has none. -/
theorem C6_children_witness :
    (getChildren demoChapters 0 =
      ((demoChapters.drop 1).takeWhile
          (fun d => decide ((mkChapter 1 1 "A").level < d.level))).filter
        (fun d => d.level == (mkChapter 1 1 "A").level + 1)) ∧
    getChildren demoChapters 2 = [] :=
  ⟨(C6_children demoChapters 0 (mkChapter 1 1 "A") rfl).1 (by decide),
   (C6_children demoChapters 2 (mkChapter 3 3 "C") rfl).2 (by decide)⟩

/-- C7: an href whose value fails query-unescaping is left unmodified, the
rest of the anchor's attributes and the remaining nodes are still
processed, and cross-reference resolution neither drops a page nor
surfaces any error (it is a total function of the page list). -/
theorem C7_decode_recovery (pages : List Page) (v : String)
    (attrs : List (String × String)) (cs rest : List Node)
    (h : queryUnescape v = none) :
    resolveAttrGo pages ("href", v) = ("href", v) ∧
    rewriteForest pages (.element "a" (("href", v) :: attrs) cs :: rest) =
      .element "a" (("href", v) :: attrs.map (resolveAttrGo pages))
        (rewriteForest pages cs) :: rewriteForest pages rest ∧
    (ResolveCrossReferences pages).length = pages.length := by
  refine ⟨resolveAttr_decode_fail pages v h, ?_, by simp [ResolveCrossReferences]⟩
  simp [rewriteForest, resolveAttr_decode_fail pages v h]

/-- C7 witness: a bare trailing percent sign fails decoding and the anchor
attribute survives unchanged. -/
theorem C7_decode_recovery_witness :
    queryUnescape "bad%" = none ∧
    resolveAttrGo demoPages ("href", "bad%") = ("href", "bad%") :=
  ⟨by decide, (C7_decode_recovery demoPages "bad%" [] [] [] (by decide)).1⟩

/-- C8: a node that is not a body element makes both Chapters and Pages
fail with the structural-validation error and an empty result list. -/
theorem C8_structural_guard (n : Node) (h : isBody n = false) :
    Chapters n = ([], some "passed HTML node is not a 'body' element") ∧
    Pages n = ([], some "passed HTML node is not a 'body' element") := by
  constructor
  · simp [Chapters, h]
  · simp [Pages, h]

/-- C8 witness: a text node is rejected by the structural guard. -/
theorem C8_structural_guard_witness :
    isBody (Node.text "x") = false ∧
    Chapters (Node.text "x") = ([], some "passed HTML node is not a 'body' element") :=
  ⟨by decide, (C8_structural_guard (Node.text "x") (by decide)).1⟩

/-- C9: every node admitted by the heading test has a level lookup that
succeeds with a value between 1 and 6, so the heading-level error branch
of Chapters is unreachable, and every extracted chapter's level lies in
that range. -/
theorem C9_heading_levels :
    (∀ n : Node, isHeading n = true →
      ∃ lv : Nat, headingLevel n = .ok lv ∧ 1 ≤ lv ∧ lv ≤ 6) ∧
    (∀ (b : Node) (j : Nat) (c : Chapter), ((Chapters b).1)[j]? = some c →
      1 ≤ c.level ∧ c.level ≤ 6) := by
  constructor
  · intro n hn
    have hlk : (headingLookup (nodeData n)).isSome := by
      simp [isHeading] at hn
      exact hn.2
    obtain ⟨lv, hlv⟩ := Option.isSome_iff_exists.mp hlk
    have hb := headingLookup_bounds hlv
    exact ⟨lv, by simp [headingLevel, hlv], hb.1, hb.2⟩
  · intro b j c hc
    by_cases hb : isBody b = true
    · rw [chapters_of_body hb] at hc
      have hspec := chaptersLoop_spec (headingsWithTails (childNodes b)) 0
        { h1Counter := 0, h2Counter := 0, h3Counter := 0 }
        (fun p hp => headingsWithTails_mem _ p hp)
      have h := hspec.2.2 j c hc
      exact ⟨h.2.2.1, h.2.2.2⟩
    · have hb' : isBody b = false := by
        revert hb
        cases isBody b <;> simp
      have : Chapters b = ([], some "passed HTML node is not a 'body' element") := by
        simp [Chapters, hb']
      rw [this] at hc
      simp at hc

/-- C9 witness: an h2 node passes the heading test with level 2, and the
single chapter of soloBody has a level within bounds. -/
theorem C9_heading_levels_witness :
    (∃ lv : Nat, headingLevel (hNode "h2" "t") = .ok lv ∧ 1 ≤ lv ∧ lv ≤ 6) ∧
    (1 ≤ soloChapter.level ∧ soloChapter.level ≤ 6) := by
  constructor
  · exact C9_heading_levels.1 (hNode "h2" "t") (by decide)
  · apply C9_heading_levels.2 soloBody 0 soloChapter
    simp [Chapters, chaptersLoop, soloBody, soloChapter, headingsWithTails, isHeading,
      isElement, nodeData, headingLookup, headingLevel, childNodes, childrenET,
      childrenFunc, siblingsUntilFunc, normalizeWs, textContent, textList, wordsAux,
      joinSpace, prefixStep, tagName, isBody]

/-- C10: an anchor inside a page whose decoded href equals that page's own
title (the page being the first with that title) is rewritten to the
page's own path: the lookup runs over the whole page list, including the
page holding the anchor. -/
theorem C10_self_reference (pages : List Page) (i : Nat) (p : Page) (v t : String)
    (attrs : List (String × String)) (cs : List Node)
    (hp : pages[i]? = some p)
    (hdec : queryUnescape v = some t)
    (ht : p.title.text = t)
    (hfirst : ∀ (j : Nat) (q : Page), j < i → pages[j]? = some q → q.title.text ≠ t)
    (hmem : Node.element "a" (("href", v) :: attrs) cs ∈ p.content.html) :
    ∃ p' : Page, (ResolveCrossReferences pages)[i]? = some p' ∧
      Node.element "a" (("href", p.path) :: attrs.map (resolveAttrGo pages))
        (rewriteForest pages cs) ∈ p'.content.html := by
  refine ⟨{ p with content := { html := rewriteForest pages p.content.html } }, ?_, ?_⟩
  · simp [ResolveCrossReferences, List.getElem?_map, hp]
  · show _ ∈ rewriteForest pages p.content.html
    rw [rewriteForest_eq_map]
    have hmap := List.mem_map_of_mem (rewriteNodeOne pages) hmem
    have heq : rewriteNodeOne pages (Node.element "a" (("href", v) :: attrs) cs) =
        Node.element "a" (("href", p.path) :: attrs.map (resolveAttrGo pages))
          (rewriteForest pages cs) := by
      simp [rewriteNodeOne]
      exact resolveAttr_first pages v t i p hdec hp ht hfirst
    rw [← heq]
    exact hmap

/-- C10 witness: demoPage's anchor names its own title and resolves to
demoPage's path. -/
theorem C10_self_reference_witness :
    ∃ p' : Page, (ResolveCrossReferences demoPages)[0]? = some p' ∧
      Node.element "a" (("href", demoPage.path) ::
          ([] : List (String × String)).map (resolveAttrGo demoPages))
        (rewriteForest demoPages [Node.text "link"]) ∈ p'.content.html :=
  C10_self_reference demoPages 0 demoPage "Getting%20Started" "Getting Started" []
    [.text "link"] rfl (by decide) rfl (fun j q hj _ => absurd hj (by omega))
    (by simp [demoPage, selfRefAnchor])

end Bookprint
